import Mathlib

/-!
Shallow embedding of the picktoss question-generation worker:
`worker/worker.py` (the `handler` function) together with the constants of
`core/enums/enum.py`.  Document text is modelled as `List Char`; the
side effects of one run (model calls, notifier reports, database
statements) are recorded as an ordered trace of `Effect`s.  The responses
of the language model are an input of the embedding: one `ChatResponse`
per chunk (indexed by chunk position) and one `SummaryResponse` for the
summary call.
-/

/-- Outcome classification of one chunk's generation attempt. -/
inductive ChunkOutcome
  | success
  | invalidFormat
  | generalFailure
deriving DecidableEq

/-- One element of a decoded JSON array: a JSON object that may or may not
carry the `question` / `answer` keys (worker.py line 82 extracts both and
raises a KeyError when one is absent). -/
structure RawItem where
  question : Option String
  answer : Option String
deriving DecidableEq

/-- Result of one `chat_llm.predict_json` call for a question chunk:
a decoded JSON array, the `InvalidLLMJsonResponseError` case, or any other
exception (worker.py lines 56-78). -/
inductive ChatResponse
  | json (items : List RawItem)
  | invalidJson (raw : String)
  | failure
deriving DecidableEq

/-- Result of the summary `predict_json` call.  `ok d` is a decoded JSON
object; `d = none` models a decoded object without the `summary` key, whose
KeyError is caught by the generic handler (worker.py lines 156-177). -/
inductive SummaryResponse
  | ok (summary : Option String)
  | invalidJson (raw : String)
  | failure
deriving DecidableEq

/-- Observable side effects of one run, in order of occurrence. -/
inductive Effect
  | llmQuestionCall (note : List Char) (prevQuestions : List String)
  | llmSummaryCall (note : List Char)
  | notify (task : String) (errorType : String)
  | dbInsertQuestion (question answer : String) (documentId : Nat) (deliveredCount : Nat)
  | dbCommit
  | dbUpdateStatus (status : String)
  | dbUpdateSummary (summary : String)
  | dbClose
deriving DecidableEq

/-- Constant `QuizQuestionNum.FREE_PLAN_QUIZ_QUESTION_NUM.value` of enum.py. -/
def FREE_PLAN_QUIZ_QUESTION_NUM : Nat := 5

/-- Constant `CHUNK_SIZE` of worker.py line 39. -/
def CHUNK_SIZE : Nat := 1100

/-- Fuel-indexed splitter; the fuel is an upper bound on the input length
and never runs out when the step `m` is positive. -/
def chunkListGo {α : Type} (m : Nat) : Nat → List α → List (List α)
  | 0, _ => []
  | _ + 1, [] => []
  | fuel + 1, a :: l => ((a :: l).take m) :: chunkListGo m fuel ((a :: l).drop m)

/-- worker.py lines 40-42:
`for i in range(0, len(content), CHUNK_SIZE): chunks.append(content[i : i + CHUNK_SIZE])`. -/
def chunkList {α : Type} (m : Nat) (l : List α) : List (List α) :=
  chunkListGo m l.length l

/-- worker.py lines 85-87: `prev_questions.append(question)` followed by
`if len(prev_questions) == 6: prev_questions.pop(0)`. -/
def pushWindow (w : List String) (q : String) : List String :=
  let w2 := w ++ [q]
  if w2.length = 6 then w2.tail else w2

/-- Per-run mutable state threaded through the question loop:
`prev_questions`, `free_plan_question_expose_count`,
`total_generated_question_count`. -/
structure GenState where
  prevQuestions : List String
  freeCount : Nat
  totalCount : Nat
deriving DecidableEq

def initState : GenState := ⟨[], 0, 0⟩

/-- worker.py lines 80-105, the body of the inner `try` looping over
`resp_dict`.  The returned `Bool` is `false` when an exception escaped the
loop (a KeyError from a malformed element, or the `ValueError` of line 100
for an unknown plan); the state changes and effects already performed are
kept, which mirrors Python exception semantics. -/
def processPairs (plan : String) (pk : Nat) : List RawItem → GenState → GenState × List Effect × Bool
  | [], s => (s, [], true)
  | it :: rest, s =>
    match it.question, it.answer with
    | some q, some a =>
      let w := pushWindow s.prevQuestions q
      if plan = "FREE" then
        if FREE_PLAN_QUIZ_QUESTION_NUM ≤ s.freeCount then
          let r := processPairs plan pk rest ⟨w, s.freeCount, s.totalCount + 1⟩
          (r.1, Effect.dbInsertQuestion q a pk 0 :: Effect.dbCommit :: r.2.1, r.2.2)
        else
          let r := processPairs plan pk rest ⟨w, s.freeCount + 1, s.totalCount + 1⟩
          (r.1, Effect.dbInsertQuestion q a pk 1 :: Effect.dbCommit :: r.2.1, r.2.2)
      else if plan = "PRO" then
        let r := processPairs plan pk rest ⟨w, s.freeCount, s.totalCount + 1⟩
        (r.1, Effect.dbInsertQuestion q a pk 1 :: Effect.dbCommit :: r.2.1, r.2.2)
      else
        (⟨w, s.freeCount, s.totalCount + 1⟩, [], false)
    | _, _ => (s, [], false)

/-- worker.py lines 53-121: processing of one chunk, from the model call to
the outcome classification. -/
def processChunk (plan : String) (pk : Nat) (chunk : List Char) (resp : ChatResponse)
    (s : GenState) : GenState × List Effect × ChunkOutcome :=
  let callEff := Effect.llmQuestionCall chunk s.prevQuestions
  match resp with
  | ChatResponse.invalidJson _ =>
    (s, [callEff, Effect.notify "Question Generation" "INVALID_LLM_JSON_RESPONSE_FORMAT"],
      ChunkOutcome.invalidFormat)
  | ChatResponse.failure =>
    (s, [callEff, Effect.notify "Question Generation" "GENERAL"], ChunkOutcome.generalFailure)
  | ChatResponse.json items =>
    let r := processPairs plan pk items s
    if r.2.2 then
      (r.1, callEff :: r.2.1 ++ [Effect.dbCommit], ChunkOutcome.success)
    else
      (r.1, callEff :: r.2.1 ++ [Effect.notify "Question Generation" "GENERAL"],
        ChunkOutcome.generalFailure)

def isSuccessOutcome : ChunkOutcome → Bool
  | ChunkOutcome.success => true
  | _ => false

/-- The chunk loop of worker.py lines 53-121, threading the state and the
two flags `success_at_least_once` / `failed_at_least_once`. -/
def runChunks (plan : String) (pk : Nat) (qResp : Nat → ChatResponse) :
    List (List Char) → Nat → GenState → Bool → Bool → GenState × List Effect × Bool × Bool
  | [], _, s, succ, fail => (s, [], succ, fail)
  | chunk :: rest, i, s, succ, fail =>
    let r := processChunk plan pk chunk (qResp i) s
    let succ2 := if isSuccessOutcome r.2.2 then true else succ
    let fail2 := if isSuccessOutcome r.2.2 then fail else true
    let rr := runChunks plan pk qResp rest (i + 1) r.1 succ2 fail2
    (rr.1, r.2.1 ++ rr.2.1, rr.2.2.1, rr.2.2.2)

/-- Ghost projection of the chunk loop: the ordered list of per-chunk
outcomes it classifies. -/
def runOutcomes (plan : String) (pk : Nat) (qResp : Nat → ChatResponse) :
    List (List Char) → Nat → GenState → List ChunkOutcome
  | [], _, _ => []
  | chunk :: rest, i, s =>
    let r := processChunk plan pk chunk (qResp i) s
    r.2.2 :: runOutcomes plan pk qResp rest (i + 1) r.1

/-- worker.py lines 141-145: accumulate `chunk[:600]` per chunk, breaking
once the accumulated length exceeds 2000. -/
def buildSummaryAux (acc : List Char) : List (List Char) → List Char
  | [] => acc
  | c :: rest =>
    let acc2 := acc ++ c.take 600
    if 2000 < acc2.length then acc2 else buildSummaryAux acc2 rest

def buildSummaryInput (chunks : List (List Char)) : List Char :=
  buildSummaryAux [] chunks

/-- worker.py lines 156-184: effects following the summary model call. -/
def summaryTail (sResp : SummaryResponse) : List Effect :=
  match sResp with
  | SummaryResponse.ok (some summary) =>
    [Effect.dbUpdateSummary summary, Effect.dbCommit, Effect.dbClose]
  | SummaryResponse.ok none =>
    [Effect.notify "Summary Generation" "GENERAL"]
  | SummaryResponse.invalidJson _ =>
    [Effect.notify "Summary Generation" "INVALID_LLM_JSON_RESPONSE_FORMAT"]
  | SummaryResponse.failure =>
    [Effect.notify "Summary Generation" "GENERAL"]

/-- worker.py `handler`, as the trace of effects of one run.  The early
`return` of line 127 (no chunk succeeded) produces a trace that ends right
after the `COMPLETELY_FAILED` status update and commit. -/
def handler (content : List Char) (plan : String) (pk : Nat)
    (qResp : Nat → ChatResponse) (sResp : SummaryResponse) : List Effect :=
  let chunks := chunkList CHUNK_SIZE content
  let r := runChunks plan pk qResp chunks 0 initState false false
  r.2.1 ++
    (if r.2.2.1 = false then
      [Effect.dbUpdateStatus "COMPLETELY_FAILED", Effect.dbCommit]
    else
      (if r.2.2.2 then Effect.dbUpdateStatus "PARTIAL_SUCCESS"
        else Effect.dbUpdateStatus "PROCESSED") :: Effect.dbCommit ::
        Effect.llmSummaryCall (buildSummaryInput chunks) :: summaryTail sResp)

/-- Value of `success_at_least_once` at the end of the chunk loop of a run. -/
def successAtLeastOnce (plan : String) (pk : Nat) (qResp : Nat → ChatResponse)
    (content : List Char) : Bool :=
  (runChunks plan pk qResp (chunkList CHUNK_SIZE content) 0 initState false false).2.2.1

def isSummaryCall : Effect → Bool
  | Effect.llmSummaryCall _ => true
  | _ => false

def isQuestionCall : Effect → Bool
  | Effect.llmQuestionCall _ _ => true
  | _ => false

def isNotifyEffect : Effect → Bool
  | Effect.notify _ _ => true
  | _ => false

def isInsert : Effect → Bool
  | Effect.dbInsertQuestion _ _ _ _ => true
  | _ => false

def isStatusUpdate : Effect → Bool
  | Effect.dbUpdateStatus _ => true
  | _ => false

/-- Effects that the chunk loop itself can emit. -/
def isChunkEffect : Effect → Bool
  | Effect.llmQuestionCall _ _ => true
  | Effect.notify _ _ => true
  | Effect.dbInsertQuestion _ _ _ _ => true
  | Effect.dbCommit => true
  | _ => false

/-- The `delivered_count` values of the question-insert statements of a
trace, in order. -/
def deliveredFlags (effs : List Effect) : List Nat :=
  effs.filterMap fun e =>
    match e with
    | Effect.dbInsertQuestion _ _ _ d => some d
    | _ => none

/-- The document-status updates of a trace, in order. -/
def statusUpdates (effs : List Effect) : List String :=
  effs.filterMap fun e =>
    match e with
    | Effect.dbUpdateStatus st => some st
    | _ => none

/-- Modelled from the spec's status-derivation rule (spec section 4.4), for
comparison with the statuses the embedded handler persists: zero Success
chunks give COMPLETELY_FAILED, a mix gives PARTIAL_SUCCESS, all Success
gives PROCESSED. -/
def specStatusRule (outcomes : List ChunkOutcome) : String :=
  if outcomes.any isSuccessOutcome = false then "COMPLETELY_FAILED"
  else if outcomes.any (fun o => !isSuccessOutcome o) then "PARTIAL_SUCCESS"
  else "PROCESSED"

/-- The delivered-count pattern of the first `k` FREE-plan questions when
the quota counter starts at `c`. -/
def quotaFlag (c i : Nat) : Nat := if c + i < 5 then 1 else 0

def flagsFrom (c k : Nat) : List Nat := (List.range k).map (quotaFlag c)

/-- A document whose text spans two chunks (1101 characters). -/
def twoChunkContent : List Char := List.replicate 1101 'a'

/-- Four 700-character chunks, used to exercise the summary-input bound. -/
def bigChunks : List (List Char) :=
  [List.replicate 700 'a', List.replicate 700 'b', List.replicate 700 'c',
    List.replicate 700 'd']

/-- Effects that the inner question loop can emit. -/
def isPairEffect : Effect → Bool
  | Effect.dbInsertQuestion _ _ _ _ => true
  | Effect.dbCommit => true
  | _ => false

/-- C4: after its 7th append the dedup window has evicted both of the first
two entries, contradicting the claim that entries 2 through 7 all remain. -/
theorem c4_counterexample :
    "q2" ∉ List.foldl pushWindow [] ["q1", "q2", "q3", "q4", "q5", "q6", "q7"] := by
  decide

theorem pushWindow_length_le (w : List String) (q : String) (h : w.length ≤ 5) :
    (pushWindow w q).length ≤ 5 := by
  simp only [pushWindow]
  by_cases h6 : (w ++ [q]).length = 6
  · simp [h6, List.length_tail]
  · simp only [if_neg h6]
    simp only [List.length_append, List.length_cons, List.length_nil] at h6 ⊢
    omega

theorem foldl_pushWindow_length (qs : List String) :
    ∀ w : List String, w.length ≤ 5 → (List.foldl pushWindow w qs).length ≤ 5 := by
  induction qs with
  | nil => intro w h; simpa using h
  | cons q rest ih =>
    intro w h
    exact ih (pushWindow w q) (pushWindow_length_le w q h)

/-- C4 (amended): the dedup window evicts as soon as its size reaches 6, so
between appends it holds at most 5 entries; after the 7th append the first
two entries are gone and entries 3 through 7 remain in original order. -/
theorem c4_theorem (qs : List String) :
    (List.foldl pushWindow [] qs).length ≤ 5 ∧
    List.foldl pushWindow [] ["q1", "q2", "q3", "q4", "q5", "q6", "q7"] =
      ["q3", "q4", "q5", "q6", "q7"] := by
  refine ⟨foldl_pushWindow_length qs [] (by simp), by decide⟩

/-- C10: an empty decoded text yields an empty chunk list; the run makes no
model call and no notifier call, persists no question row, persists the
COMPLETELY_FAILED status, and returns without attempting a summary. -/
theorem c10_theorem (plan : String) (pk : Nat) (qResp : Nat → ChatResponse)
    (sResp : SummaryResponse) :
    chunkList CHUNK_SIZE ([] : List Char) = [] ∧
    handler [] plan pk qResp sResp =
      [Effect.dbUpdateStatus "COMPLETELY_FAILED", Effect.dbCommit] ∧
    (handler [] plan pk qResp sResp).countP isQuestionCall = 0 ∧
    (handler [] plan pk qResp sResp).countP isSummaryCall = 0 ∧
    (handler [] plan pk qResp sResp).countP isNotifyEffect = 0 ∧
    (handler [] plan pk qResp sResp).countP isInsert = 0 := by
  refine ⟨rfl, rfl, rfl, rfl, rfl, rfl⟩

theorem chunkListGo_nil {α : Type} (m fuel : Nat) : chunkListGo m fuel ([] : List α) = [] := by
  cases fuel <;> rfl

theorem chunkListGo_congr {α : Type} (m : Nat) (hm : 0 < m) :
    ∀ (f1 : Nat) (l : List α) (f2 : Nat), l.length ≤ f1 → l.length ≤ f2 →
      chunkListGo m f1 l = chunkListGo m f2 l := by
  intro f1
  induction f1 with
  | zero =>
    intro l f2 h1 _
    have hl : l = [] := List.length_eq_zero.mp (Nat.le_zero.mp h1)
    subst hl
    simp [chunkListGo_nil]
  | succ f ih =>
    intro l f2 h1 h2
    cases l with
    | nil => simp [chunkListGo_nil]
    | cons a l' =>
      cases f2 with
      | zero => simp at h2
      | succ g =>
        simp only [chunkListGo]
        congr 1
        apply ih
        · rw [List.length_drop]
          simp only [List.length_cons] at h1 ⊢
          omega
        · rw [List.length_drop]
          simp only [List.length_cons] at h2 ⊢
          omega

theorem chunkList_cons {α : Type} (m : Nat) (hm : 0 < m) (a : α) (l : List α) :
    chunkList m (a :: l) = (a :: l).take m :: chunkList m ((a :: l).drop m) := by
  show chunkListGo m (a :: l).length (a :: l) = _
  simp only [List.length_cons, chunkListGo]
  congr 1
  apply chunkListGo_congr m hm
  · rw [List.length_drop]
    simp only [List.length_cons]
    omega
  · exact le_rfl

theorem chunkListGo_flatten {α : Type} (m : Nat) (hm : 0 < m) :
    ∀ (fuel : Nat) (l : List α), l.length ≤ fuel → (chunkListGo m fuel l).flatten = l := by
  intro fuel
  induction fuel with
  | zero =>
    intro l h
    have hl : l = [] := List.length_eq_zero.mp (Nat.le_zero.mp h)
    subst hl
    rfl
  | succ f ih =>
    intro l h
    cases l with
    | nil => rfl
    | cons a l' =>
      simp only [chunkListGo, List.flatten_cons]
      rw [ih ((a :: l').drop m)
        (by rw [List.length_drop]; simp only [List.length_cons] at h ⊢; omega)]
      exact List.take_append_drop m (a :: l')

theorem chunkListGo_length_le {α : Type} (m : Nat) :
    ∀ (fuel : Nat) (l : List α), ∀ c ∈ chunkListGo m fuel l, c.length ≤ m := by
  intro fuel
  induction fuel with
  | zero => intro l c hc; simp [chunkListGo] at hc
  | succ f ih =>
    intro l c hc
    cases l with
    | nil => simp [chunkListGo] at hc
    | cons a l' =>
      simp only [chunkListGo, List.mem_cons] at hc
      rcases hc with rfl | hc
      · rw [List.length_take]
        exact Nat.min_le_left _ _
      · exact ih _ c hc

theorem chunkListGo_dropLast {α : Type} (m : Nat) (hm : 0 < m) :
    ∀ (fuel : Nat) (l : List α), l.length ≤ fuel →
      ∀ c ∈ (chunkListGo m fuel l).dropLast, c.length = m := by
  intro fuel
  induction fuel with
  | zero =>
    intro l h c hc
    have hl : l = [] := List.length_eq_zero.mp (Nat.le_zero.mp h)
    subst hl
    simp [chunkListGo_nil] at hc
  | succ f ih =>
    intro l h c hc
    cases l with
    | nil => simp [chunkListGo_nil] at hc
    | cons a l' =>
      simp only [chunkListGo] at hc
      by_cases hrest : chunkListGo m f ((a :: l').drop m) = []
      · rw [hrest] at hc
        simp at hc
      · rw [List.dropLast_cons_of_ne_nil hrest] at hc
        rcases List.mem_cons.mp hc with hceq | hc'
        · subst hceq
          have hne : (a :: l').drop m ≠ [] := by
            intro hdrop
            apply hrest
            rw [hdrop]
            exact chunkListGo_nil m f
          have hlen : m < (a :: l').length := by
            rcases Nat.lt_or_ge m (a :: l').length with h' | h'
            · exact h'
            · exact absurd (List.drop_eq_nil_iff.mpr h') hne
          rw [List.length_take]
          omega
        · exact ih ((a :: l').drop m)
            (by rw [List.length_drop]; simp only [List.length_cons] at h ⊢; omega) c hc'

/-- C7: for every text and every positive chunk size, the chunker's pieces
concatenate back to the text, every piece except possibly the last has
length exactly the chunk size, every piece is bounded by the chunk size,
and empty input yields no chunks. -/
theorem c7_theorem {α : Type} (l : List α) (m : Nat) (hm : 0 < m) :
    (chunkList m l).flatten = l ∧
    (∀ c ∈ (chunkList m l).dropLast, c.length = m) ∧
    (∀ c ∈ chunkList m l, c.length ≤ m) ∧
    chunkList m ([] : List α) = [] :=
  ⟨chunkListGo_flatten m hm l.length l le_rfl,
    chunkListGo_dropLast m hm l.length l le_rfl,
    fun c hc => chunkListGo_length_le m l.length l c hc, rfl⟩

theorem c7_witness :
    0 < 2 ∧
    ((chunkList 2 [0, 1, 2]).flatten = [0, 1, 2] ∧
      (∀ c ∈ (chunkList 2 [0, 1, 2]).dropLast, c.length = 2) ∧
      (∀ c ∈ chunkList 2 [0, 1, 2], c.length ≤ 2) ∧
      chunkList 2 ([] : List Nat) = []) :=
  ⟨by decide, c7_theorem [0, 1, 2] 2 (by decide)⟩

theorem buildSummaryAux_spec (chunks : List (List Char)) : ∀ acc : List Char,
    ∃ k, k ≤ chunks.length ∧
      buildSummaryAux acc chunks =
        acc ++ ((chunks.take k).map (fun c => c.take 600)).flatten ∧
      (∀ j, 0 < j → j < k →
        (acc ++ ((chunks.take j).map (fun c => c.take 600)).flatten).length ≤ 2000) ∧
      (k < chunks.length →
        2000 < (acc ++ ((chunks.take k).map (fun c => c.take 600)).flatten).length) := by
  induction chunks with
  | nil =>
    intro acc
    exact ⟨0, by simp [buildSummaryAux]⟩
  | cons c cs ih =>
    intro acc
    by_cases hb : 2000 < (acc ++ c.take 600).length
    · refine ⟨1, by simp, ?_, ?_, ?_⟩
      · show (if 2000 < (acc ++ c.take 600).length then acc ++ c.take 600
            else buildSummaryAux (acc ++ c.take 600) cs) = _
        rw [if_pos hb]
        simp
      · intro j hj0 hj1
        omega
      · intro _
        simpa using hb
    · obtain ⟨k, hk, heq, hmid, hbreak⟩ := ih (acc ++ c.take 600)
      refine ⟨k + 1, by simpa using hk, ?_, ?_, ?_⟩
      · show (if 2000 < (acc ++ c.take 600).length then acc ++ c.take 600
            else buildSummaryAux (acc ++ c.take 600) cs) = _
        rw [if_neg hb, heq]
        simp [List.append_assoc]
      · intro j hj0 hjk
        rcases j with _ | j1
        · omega
        rcases j1 with _ | j2
        · simpa using Nat.le_of_not_lt hb
        · have hmi := hmid (j2 + 1) (by omega) (by omega)
          simpa [List.take_succ_cons, List.append_assoc] using hmi
      · intro hlt
        have hbr := hbreak (by simp only [List.length_cons] at hlt; omega)
        simpa [List.take_succ_cons, List.append_assoc] using hbr

/-- C8: the summary input is the concatenation of whole 600-character
chunk prefixes, taken in order; the loop never stops while the accumulated
length is at most 2000, and it stops before exhausting the chunks only
when the accumulated length has exceeded 2000 (the last appended prefix
may push it over without truncation). -/
theorem c8_theorem (chunks : List (List Char)) :
    ∃ k, k ≤ chunks.length ∧
      buildSummaryInput chunks = ((chunks.take k).map (fun c => c.take 600)).flatten ∧
      (∀ j, 0 < j → j < k →
        (((chunks.take j).map (fun c => c.take 600)).flatten).length ≤ 2000) ∧
      (k < chunks.length →
        2000 < (((chunks.take k).map (fun c => c.take 600)).flatten).length) := by
  obtain ⟨k, hk, heq, hmid, hbreak⟩ := buildSummaryAux_spec chunks []
  refine ⟨k, hk, by simpa [buildSummaryInput] using heq, ?_, by simpa using hbreak⟩
  intro j hj0 hjk
  simpa using hmid j hj0 hjk

theorem c8_witness :
    ∃ k, k ≤ bigChunks.length ∧
      buildSummaryInput bigChunks = ((bigChunks.take k).map (fun c => c.take 600)).flatten ∧
      (∀ j, 0 < j → j < k →
        (((bigChunks.take j).map (fun c => c.take 600)).flatten).length ≤ 2000) ∧
      (k < bigChunks.length →
        2000 < (((bigChunks.take k).map (fun c => c.take 600)).flatten).length) :=
  c8_theorem bigChunks

theorem deliveredFlags_nil : deliveredFlags [] = [] := rfl

theorem deliveredFlags_cons_insert (q a : String) (pk d : Nat) (l : List Effect) :
    deliveredFlags (Effect.dbInsertQuestion q a pk d :: l) = d :: deliveredFlags l := rfl

theorem deliveredFlags_cons_commit (l : List Effect) :
    deliveredFlags (Effect.dbCommit :: l) = deliveredFlags l := rfl

theorem deliveredFlags_cons_call (note : List Char) (pq : List String) (l : List Effect) :
    deliveredFlags (Effect.llmQuestionCall note pq :: l) = deliveredFlags l := rfl

theorem deliveredFlags_append (l r : List Effect) :
    deliveredFlags (l ++ r) = deliveredFlags l ++ deliveredFlags r := by
  simp [deliveredFlags, List.filterMap_append]

theorem statusUpdates_append (l r : List Effect) :
    statusUpdates (l ++ r) = statusUpdates l ++ statusUpdates r := by
  simp [statusUpdates, List.filterMap_append]

theorem statusUpdates_cons_status (st : String) (l : List Effect) :
    statusUpdates (Effect.dbUpdateStatus st :: l) = st :: statusUpdates l := rfl

theorem statusUpdates_cons_commit (l : List Effect) :
    statusUpdates (Effect.dbCommit :: l) = statusUpdates l := rfl

theorem statusUpdates_cons_summaryCall (note : List Char) (l : List Effect) :
    statusUpdates (Effect.llmSummaryCall note :: l) = statusUpdates l := rfl

theorem summaryTail_statusUpdates (sResp : SummaryResponse) :
    statusUpdates (summaryTail sResp) = [] := by
  cases sResp with
  | ok o => cases o <;> rfl
  | invalidJson raw => rfl
  | failure => rfl

theorem summaryTail_deliveredFlags (sResp : SummaryResponse) :
    deliveredFlags (summaryTail sResp) = [] := by
  cases sResp with
  | ok o => cases o <;> rfl
  | invalidJson raw => rfl
  | failure => rfl

theorem processPairs_effects (plan : String) (pk : Nat) :
    ∀ (items : List RawItem) (s : GenState),
      ∀ e ∈ (processPairs plan pk items s).2.1, isPairEffect e = true := by
  intro items
  induction items with
  | nil => intro s e he; simp [processPairs] at he
  | cons it rest ih =>
    intro s e he
    rcases it with ⟨_ | q, _ | a⟩
    · simp [processPairs] at he
    · simp [processPairs] at he
    · simp [processPairs] at he
    · simp only [processPairs] at he
      split_ifs at he <;>
        first
          | exact absurd he (List.not_mem_nil e)
          | (simp only [List.mem_cons] at he
             rcases he with rfl | rfl | he
             · rfl
             · rfl
             · exact ih _ e he)

theorem processChunk_effects (plan : String) (pk : Nat) (chunk : List Char)
    (resp : ChatResponse) (s : GenState) :
    ∀ e ∈ (processChunk plan pk chunk resp s).2.1, isChunkEffect e = true := by
  intro e he
  cases resp with
  | invalidJson raw =>
    simp only [processChunk, List.mem_cons, List.not_mem_nil, or_false] at he
    rcases he with rfl | rfl <;> rfl
  | failure =>
    simp only [processChunk, List.mem_cons, List.not_mem_nil, or_false] at he
    rcases he with rfl | rfl <;> rfl
  | json items =>
    have hp : ∀ x ∈ (processPairs plan pk items s).2.1, isChunkEffect x = true := by
      intro x hx
      have h := processPairs_effects plan pk items s x hx
      cases x <;> simp_all [isPairEffect, isChunkEffect]
    simp only [processChunk] at he
    split_ifs at he <;>
      (dsimp only at he
       rw [List.mem_append, List.mem_cons, List.mem_singleton] at he
       rcases he with (rfl | he) | rfl
       · rfl
       · exact hp e he
       · rfl)

theorem runChunks_effects (plan : String) (pk : Nat) (qResp : Nat → ChatResponse) :
    ∀ (chunks : List (List Char)) (i : Nat) (s : GenState) (succ fail : Bool),
      ∀ e ∈ (runChunks plan pk qResp chunks i s succ fail).2.1, isChunkEffect e = true := by
  intro chunks
  induction chunks with
  | nil => intro i s succ fail e he; simp [runChunks] at he
  | cons c rest ih =>
    intro i s succ fail e he
    simp only [runChunks, List.mem_append] at he
    rcases he with he | he
    · exact processChunk_effects plan pk c (qResp i) s e he
    · exact ih _ _ _ _ e he

theorem runChunks_no_summaryCall (plan : String) (pk : Nat) (qResp : Nat → ChatResponse)
    (chunks : List (List Char)) (i : Nat) (s : GenState) (succ fail : Bool) :
    ((runChunks plan pk qResp chunks i s succ fail).2.1).any isSummaryCall = false := by
  rw [List.any_eq_false]
  intro e he
  have h := runChunks_effects plan pk qResp chunks i s succ fail e he
  cases e <;> simp_all [isChunkEffect, isSummaryCall]

theorem runChunks_no_close (plan : String) (pk : Nat) (qResp : Nat → ChatResponse)
    (chunks : List (List Char)) (i : Nat) (s : GenState) (succ fail : Bool) :
    Effect.dbClose ∉ (runChunks plan pk qResp chunks i s succ fail).2.1 := by
  intro he
  have h := runChunks_effects plan pk qResp chunks i s succ fail Effect.dbClose he
  simp [isChunkEffect] at h

theorem runChunks_statusUpdates (plan : String) (pk : Nat) (qResp : Nat → ChatResponse)
    (chunks : List (List Char)) (i : Nat) (s : GenState) (succ fail : Bool) :
    statusUpdates (runChunks plan pk qResp chunks i s succ fail).2.1 = [] := by
  rw [statusUpdates, List.filterMap_eq_nil_iff]
  intro e he
  have h := runChunks_effects plan pk qResp chunks i s succ fail e he
  cases e <;> simp_all [isChunkEffect]

/-- C1 (amended): summary generation is attempted, right after the status
update and commit, exactly when some chunk reached Success; on a
COMPLETELY_FAILED run the handler returns immediately after persisting the
status and never makes the summary model call. -/
theorem c1_theorem (content : List Char) (plan : String) (pk : Nat)
    (qResp : Nat → ChatResponse) (sResp : SummaryResponse) :
    (successAtLeastOnce plan pk qResp content = true →
      ∃ pre rest st, handler content plan pk qResp sResp =
        pre ++ Effect.dbUpdateStatus st :: Effect.dbCommit ::
          Effect.llmSummaryCall (buildSummaryInput (chunkList CHUNK_SIZE content)) :: rest) ∧
    (successAtLeastOnce plan pk qResp content = false →
      (handler content plan pk qResp sResp).any isSummaryCall = false) := by
  constructor
  · intro hs
    have hs' : (runChunks plan pk qResp (chunkList CHUNK_SIZE content) 0 initState
        false false).2.2.1 = true := hs
    refine ⟨(runChunks plan pk qResp (chunkList CHUNK_SIZE content) 0 initState
        false false).2.1, summaryTail sResp,
      (if (runChunks plan pk qResp (chunkList CHUNK_SIZE content) 0 initState
          false false).2.2.2 = true then "PARTIAL_SUCCESS" else "PROCESSED"), ?_⟩
    simp only [handler]
    rw [if_neg (by simp [hs'])]
    by_cases hf : (runChunks plan pk qResp (chunkList CHUNK_SIZE content) 0 initState
        false false).2.2.2 = true
    · rw [if_pos hf, if_pos hf]
    · rw [if_neg hf, if_neg hf]
  · intro hs
    have hs' : (runChunks plan pk qResp (chunkList CHUNK_SIZE content) 0 initState
        false false).2.2.1 = false := hs
    simp only [handler]
    rw [if_pos hs', List.any_append, runChunks_no_summaryCall]
    rfl

/-- C1: a run in which the only chunk fails persists COMPLETELY_FAILED and
its trace contains no summary model call, refuting that the summary call is
made regardless of chunk outcomes. -/
theorem c1_counterexample :
    (handler ['a'] "FREE" 7 (fun _ => ChatResponse.failure)
      (SummaryResponse.ok (some "s"))).any isSummaryCall = false := by
  decide

theorem c1_witness :
    successAtLeastOnce "FREE" 7 (fun _ => ChatResponse.json [⟨some "q", some "a"⟩]) ['a'] =
      true ∧
    ∃ pre rest st, handler ['a'] "FREE" 7
        (fun _ => ChatResponse.json [⟨some "q", some "a"⟩]) (SummaryResponse.ok (some "s")) =
      pre ++ Effect.dbUpdateStatus st :: Effect.dbCommit ::
        Effect.llmSummaryCall (buildSummaryInput (chunkList CHUNK_SIZE ['a'])) :: rest :=
  have h := c1_theorem ['a'] "FREE" 7 (fun _ => ChatResponse.json [⟨some "q", some "a"⟩])
    (SummaryResponse.ok (some "s"))
  ⟨by decide, h.1 (by decide)⟩

theorem handler_close_in_tail (content : List Char) (plan : String) (pk : Nat)
    (qResp : Nat → ChatResponse) (sResp : SummaryResponse)
    (hmem : Effect.dbClose ∈ handler content plan pk qResp sResp) :
    Effect.dbClose ∈ summaryTail sResp := by
  simp only [handler] at hmem
  rcases List.mem_append.mp hmem with h | h
  · exact absurd h (runChunks_no_close plan pk qResp _ 0 initState false false)
  · by_cases hsucc : (runChunks plan pk qResp (chunkList CHUNK_SIZE content) 0 initState
        false false).2.2.1 = false
    · rw [if_pos hsucc] at h
      rcases List.mem_cons.mp h with h | h
      · exact Effect.noConfusion h
      · rcases List.mem_cons.mp h with h | h
        · exact Effect.noConfusion h
        · exact absurd h (List.not_mem_nil _)
    · rw [if_neg hsucc] at h
      rcases List.mem_cons.mp h with h | h
      · by_cases hf : (runChunks plan pk qResp (chunkList CHUNK_SIZE content) 0 initState
            false false).2.2.2 = true
        · rw [if_pos hf] at h
          exact Effect.noConfusion h
        · rw [if_neg hf] at h
          exact Effect.noConfusion h
      · rcases List.mem_cons.mp h with h | h
        · exact Effect.noConfusion h
        · rcases List.mem_cons.mp h with h | h
          · exact Effect.noConfusion h
          · exact h

/-- C9: the database close is never part of the trace on the
COMPLETELY_FAILED early return or on any summary-failure return, and on the
fully-successful summary path the trace ends with the summary update, its
commit, and the close, in that order. -/
theorem c9_theorem (content : List Char) (plan : String) (pk : Nat)
    (qResp : Nat → ChatResponse) (sResp : SummaryResponse) :
    (successAtLeastOnce plan pk qResp content = false →
      Effect.dbClose ∉ handler content plan pk qResp sResp) ∧
    (∀ raw, sResp = SummaryResponse.invalidJson raw →
      Effect.dbClose ∉ handler content plan pk qResp sResp) ∧
    (sResp = SummaryResponse.failure →
      Effect.dbClose ∉ handler content plan pk qResp sResp) ∧
    (sResp = SummaryResponse.ok none →
      Effect.dbClose ∉ handler content plan pk qResp sResp) ∧
    (∀ str, sResp = SummaryResponse.ok (some str) →
      successAtLeastOnce plan pk qResp content = true →
      ∃ pre, handler content plan pk qResp sResp =
        pre ++ [Effect.dbUpdateSummary str, Effect.dbCommit, Effect.dbClose]) := by
  refine ⟨?_, ?_, ?_, ?_, ?_⟩
  · intro hs hmem
    have hs' : (runChunks plan pk qResp (chunkList CHUNK_SIZE content) 0 initState
        false false).2.2.1 = false := hs
    simp only [handler] at hmem
    rw [if_pos hs'] at hmem
    rcases List.mem_append.mp hmem with h | h
    · exact absurd h (runChunks_no_close plan pk qResp _ 0 initState false false)
    · rcases List.mem_cons.mp h with h | h
      · exact Effect.noConfusion h
      · rcases List.mem_cons.mp h with h | h
        · exact Effect.noConfusion h
        · exact absurd h (List.not_mem_nil _)
  · intro raw hraw hmem
    subst hraw
    have h := handler_close_in_tail content plan pk qResp _ hmem
    simp [summaryTail] at h
  · intro hraw hmem
    subst hraw
    have h := handler_close_in_tail content plan pk qResp _ hmem
    simp [summaryTail] at h
  · intro hraw hmem
    subst hraw
    have h := handler_close_in_tail content plan pk qResp _ hmem
    simp [summaryTail] at h
  · intro str hstr hsucc
    subst hstr
    have hs' : (runChunks plan pk qResp (chunkList CHUNK_SIZE content) 0 initState
        false false).2.2.1 = true := hsucc
    refine ⟨(runChunks plan pk qResp (chunkList CHUNK_SIZE content) 0 initState
        false false).2.1 ++
      [(if (runChunks plan pk qResp (chunkList CHUNK_SIZE content) 0 initState
            false false).2.2.2 = true then Effect.dbUpdateStatus "PARTIAL_SUCCESS"
          else Effect.dbUpdateStatus "PROCESSED"), Effect.dbCommit,
        Effect.llmSummaryCall (buildSummaryInput (chunkList CHUNK_SIZE content))], ?_⟩
    simp only [handler, summaryTail]
    rw [if_neg (by simp [hs'])]
    simp [List.append_assoc]

theorem c9_witness :
    successAtLeastOnce "FREE" 7 (fun _ => ChatResponse.json [⟨some "q", some "a"⟩]) ['a'] =
      true ∧
    ∃ pre, handler ['a'] "FREE" 7 (fun _ => ChatResponse.json [⟨some "q", some "a"⟩])
        (SummaryResponse.ok (some "sum")) =
      pre ++ [Effect.dbUpdateSummary "sum", Effect.dbCommit, Effect.dbClose] :=
  have h := c9_theorem ['a'] "FREE" 7 (fun _ => ChatResponse.json [⟨some "q", some "a"⟩])
    (SummaryResponse.ok (some "sum"))
  ⟨by decide, h.2.2.2.2 "sum" rfl (by decide)⟩

theorem processPairs_badplan (plan : String) (pk : Nat) (h1 : plan ≠ "FREE")
    (h2 : plan ≠ "PRO") (items : List RawItem) (s : GenState) :
    (processPairs plan pk items s).2.1 = [] := by
  cases items with
  | nil => rfl
  | cons it rest =>
    rcases it with ⟨_ | q, _ | a⟩
    · rfl
    · rfl
    · rfl
    · simp only [processPairs]
      rw [if_neg h1, if_neg h2]

theorem processChunk_badplan_inserts (plan : String) (pk : Nat) (chunk : List Char)
    (resp : ChatResponse) (s : GenState) (h1 : plan ≠ "FREE") (h2 : plan ≠ "PRO") :
    ((processChunk plan pk chunk resp s).2.1).countP isInsert = 0 := by
  cases resp with
  | invalidJson raw => rfl
  | failure => rfl
  | json items =>
    have he := processPairs_badplan plan pk h1 h2 items s
    simp only [processChunk]
    split_ifs <;> simp [he, List.countP_cons, List.countP_append, isInsert]

theorem runChunks_badplan_inserts (plan : String) (pk : Nat) (qResp : Nat → ChatResponse)
    (h1 : plan ≠ "FREE") (h2 : plan ≠ "PRO") :
    ∀ (chunks : List (List Char)) (i : Nat) (s : GenState) (succ fail : Bool),
      ((runChunks plan pk qResp chunks i s succ fail).2.1).countP isInsert = 0 := by
  intro chunks
  induction chunks with
  | nil => intro i s succ fail; rfl
  | cons c rest ih =>
    intro i s succ fail
    simp only [runChunks, List.countP_append]
    rw [processChunk_badplan_inserts plan pk c (qResp i) s h1 h2, ih]

theorem processPairs_no_questionCall (plan : String) (pk : Nat) (items : List RawItem)
    (s : GenState) :
    ((processPairs plan pk items s).2.1).countP isQuestionCall = 0 := by
  rw [List.countP_eq_zero]
  intro e he
  have h := processPairs_effects plan pk items s e he
  cases e <;> simp_all [isPairEffect, isQuestionCall]

theorem processChunk_questionCalls (plan : String) (pk : Nat) (chunk : List Char)
    (resp : ChatResponse) (s : GenState) :
    ((processChunk plan pk chunk resp s).2.1).countP isQuestionCall = 1 := by
  cases resp with
  | invalidJson raw => rfl
  | failure => rfl
  | json items =>
    have hz := processPairs_no_questionCall plan pk items s
    simp only [processChunk]
    split_ifs <;> simp [List.countP_cons, List.countP_append, hz, isQuestionCall]

theorem runChunks_questionCalls (plan : String) (pk : Nat) (qResp : Nat → ChatResponse) :
    ∀ (chunks : List (List Char)) (i : Nat) (s : GenState) (succ fail : Bool),
      ((runChunks plan pk qResp chunks i s succ fail).2.1).countP isQuestionCall =
        chunks.length := by
  intro chunks
  induction chunks with
  | nil => intro i s succ fail; rfl
  | cons c rest ih =>
    intro i s succ fail
    simp only [runChunks, List.countP_append, List.length_cons]
    rw [processChunk_questionCalls, ih]
    omega

theorem runChunks_statusCount (plan : String) (pk : Nat) (qResp : Nat → ChatResponse)
    (chunks : List (List Char)) (i : Nat) (s : GenState) (succ fail : Bool) :
    ((runChunks plan pk qResp chunks i s succ fail).2.1).countP isStatusUpdate = 0 := by
  rw [List.countP_eq_zero]
  intro e he
  have h := runChunks_effects plan pk qResp chunks i s succ fail e he
  cases e <;> simp_all [isChunkEffect, isStatusUpdate]

theorem summaryTail_counts (sResp : SummaryResponse) :
    (summaryTail sResp).countP isInsert = 0 ∧
    (summaryTail sResp).countP isQuestionCall = 0 ∧
    (summaryTail sResp).countP isStatusUpdate = 0 := by
  cases sResp with
  | ok o => cases o <;> exact ⟨rfl, rfl, rfl⟩
  | invalidJson raw => exact ⟨rfl, rfl, rfl⟩
  | failure => exact ⟨rfl, rfl, rfl⟩

theorem handler_statusCount (content : List Char) (plan : String) (pk : Nat)
    (qResp : Nat → ChatResponse) (sResp : SummaryResponse) :
    (handler content plan pk qResp sResp).countP isStatusUpdate = 1 := by
  simp only [handler, List.countP_append]
  rw [runChunks_statusCount]
  by_cases hs : (runChunks plan pk qResp (chunkList CHUNK_SIZE content) 0 initState
      false false).2.2.1 = false
  · rw [if_pos hs]
    rfl
  · rw [if_neg hs]
    by_cases hf : (runChunks plan pk qResp (chunkList CHUNK_SIZE content) 0 initState
        false false).2.2.2 = true
    · rw [if_pos hf]
      simp [List.countP_cons, (summaryTail_counts sResp).2.2, isStatusUpdate,
        isSummaryCall]
    · rw [if_neg hf]
      simp [List.countP_cons, (summaryTail_counts sResp).2.2, isStatusUpdate,
        isSummaryCall]

/-- C3 (amended): a subscription plan that is neither FREE nor PRO raises
the line-100 ValueError inside the per-chunk try block, where the generic
handler catches it: the run is not aborted — every chunk still gets its
model call, a final document status is still persisted — and no question
row is ever inserted. -/
theorem c3_theorem (plan : String) (h1 : plan ≠ "FREE") (h2 : plan ≠ "PRO")
    (content : List Char) (pk : Nat) (qResp : Nat → ChatResponse)
    (sResp : SummaryResponse) :
    (handler content plan pk qResp sResp).countP isInsert = 0 ∧
    (handler content plan pk qResp sResp).countP isQuestionCall =
      (chunkList CHUNK_SIZE content).length ∧
    (handler content plan pk qResp sResp).countP isStatusUpdate = 1 := by
  refine ⟨?_, ?_, handler_statusCount content plan pk qResp sResp⟩
  · simp only [handler, List.countP_append]
    rw [runChunks_badplan_inserts plan pk qResp h1 h2]
    by_cases hs : (runChunks plan pk qResp (chunkList CHUNK_SIZE content) 0 initState
        false false).2.2.1 = false
    · rw [if_pos hs]
      rfl
    · rw [if_neg hs]
      by_cases hf : (runChunks plan pk qResp (chunkList CHUNK_SIZE content) 0 initState
          false false).2.2.2 = true
      · rw [if_pos hf]
        simp [List.countP_cons, (summaryTail_counts sResp).1, isInsert]
      · rw [if_neg hf]
        simp [List.countP_cons, (summaryTail_counts sResp).1, isInsert]
  · simp only [handler, List.countP_append]
    rw [runChunks_questionCalls]
    by_cases hs : (runChunks plan pk qResp (chunkList CHUNK_SIZE content) 0 initState
        false false).2.2.1 = false
    · rw [if_pos hs]
      rfl
    · rw [if_neg hs]
      by_cases hf : (runChunks plan pk qResp (chunkList CHUNK_SIZE content) 0 initState
          false false).2.2.2 = true
      · rw [if_pos hf]
        simp [List.countP_cons, (summaryTail_counts sResp).2.1, isQuestionCall]
      · rw [if_neg hf]
        simp [List.countP_cons, (summaryTail_counts sResp).2.1, isQuestionCall]

set_option maxRecDepth 100000 in
/-- C3: a two-chunk run under plan ENTERPRISE in which each chunk decodes to
one well-formed pair: the run is not aborted at the first delivery decision
— the second chunk still receives its model call, both chunks are reported
to the notifier as recovered failures, and a final status is persisted. -/
theorem c3_counterexample :
    ((handler twoChunkContent "ENTERPRISE" 7
        (fun _ => ChatResponse.json [⟨some "q", some "a"⟩])
        (SummaryResponse.ok (some "s"))).countP isQuestionCall = 2) ∧
    ((handler twoChunkContent "ENTERPRISE" 7
        (fun _ => ChatResponse.json [⟨some "q", some "a"⟩])
        (SummaryResponse.ok (some "s"))).countP isNotifyEffect = 2) ∧
    ((handler twoChunkContent "ENTERPRISE" 7
        (fun _ => ChatResponse.json [⟨some "q", some "a"⟩])
        (SummaryResponse.ok (some "s"))).countP isStatusUpdate = 1) := by
  refine ⟨by decide, by decide, by decide⟩

theorem c3_witness :
    "ENTERPRISE" ≠ "FREE" ∧ "ENTERPRISE" ≠ "PRO" ∧
    ((handler ['a'] "ENTERPRISE" 7 (fun _ => ChatResponse.json [⟨some "q", some "a"⟩])
        SummaryResponse.failure).countP isInsert = 0 ∧
      (handler ['a'] "ENTERPRISE" 7 (fun _ => ChatResponse.json [⟨some "q", some "a"⟩])
          SummaryResponse.failure).countP isQuestionCall =
        (chunkList CHUNK_SIZE ['a']).length ∧
      (handler ['a'] "ENTERPRISE" 7 (fun _ => ChatResponse.json [⟨some "q", some "a"⟩])
          SummaryResponse.failure).countP isStatusUpdate = 1) :=
  ⟨by decide, by decide,
    c3_theorem "ENTERPRISE" (by decide) (by decide) ['a'] 7
      (fun _ => ChatResponse.json [⟨some "q", some "a"⟩]) SummaryResponse.failure⟩

theorem processPairs_wf_append_bad (plan : String) (pk : Nat)
    (hp : plan = "FREE" ∨ plan = "PRO") (bad : RawItem)
    (hb : bad.question = none ∨ bad.answer = none) :
    ∀ (good : List RawItem) (rest : List RawItem) (s : GenState),
      (∀ it ∈ good, it.question ≠ none ∧ it.answer ≠ none) →
      processPairs plan pk (good ++ bad :: rest) s =
        ((processPairs plan pk good s).1, (processPairs plan pk good s).2.1, false) := by
  intro good
  induction good with
  | nil =>
    intro rest s _
    rcases bad with ⟨bq, ba⟩
    simp only at hb
    rcases hb with hq | ha
    · subst hq
      rfl
    · subst ha
      cases bq <;> rfl
  | cons g good' ih =>
    intro rest s hg
    have hgwf := hg g (List.mem_cons_self g good')
    have ihg : ∀ it ∈ good', it.question ≠ none ∧ it.answer ≠ none :=
      fun it hit => hg it (List.mem_cons_of_mem g hit)
    rcases g with ⟨_ | q, _ | a⟩
    · exact absurd rfl hgwf.1
    · exact absurd rfl hgwf.1
    · exact absurd rfl hgwf.2
    · rcases hp with hplan | hplan <;> subst hplan
      · by_cases hc : FREE_PLAN_QUIZ_QUESTION_NUM ≤ s.freeCount
        · have hih := ih rest ⟨pushWindow s.prevQuestions q, s.freeCount, s.totalCount + 1⟩ ihg
          simp [processPairs, hc, hih]
        · have hih := ih rest
            ⟨pushWindow s.prevQuestions q, s.freeCount + 1, s.totalCount + 1⟩ ihg
          simp [processPairs, hc, hih]
      · have hih := ih rest ⟨pushWindow s.prevQuestions q, s.freeCount, s.totalCount + 1⟩ ihg
        simp [processPairs, hih]

theorem processPairs_wf_insert_count (plan : String) (pk : Nat)
    (hp : plan = "FREE" ∨ plan = "PRO") :
    ∀ (good : List RawItem) (s : GenState),
      (∀ it ∈ good, it.question ≠ none ∧ it.answer ≠ none) →
      ((processPairs plan pk good s).2.1).countP isInsert = good.length := by
  intro good
  induction good with
  | nil => intro s _; rfl
  | cons g good' ih =>
    intro s hg
    have hgwf := hg g (List.mem_cons_self g good')
    have ihg : ∀ it ∈ good', it.question ≠ none ∧ it.answer ≠ none :=
      fun it hit => hg it (List.mem_cons_of_mem g hit)
    rcases g with ⟨_ | q, _ | a⟩
    · exact absurd rfl hgwf.1
    · exact absurd rfl hgwf.1
    · exact absurd rfl hgwf.2
    · rcases hp with hplan | hplan <;> subst hplan
      · by_cases hc : FREE_PLAN_QUIZ_QUESTION_NUM ≤ s.freeCount
        · have hih := ih ⟨pushWindow s.prevQuestions q, s.freeCount, s.totalCount + 1⟩ ihg
          simp [processPairs, hc, List.countP_cons, hih, isInsert]
        · have hih := ih
            ⟨pushWindow s.prevQuestions q, s.freeCount + 1, s.totalCount + 1⟩ ihg
          simp [processPairs, hc, List.countP_cons, hih, isInsert]
      · have hih := ih ⟨pushWindow s.prevQuestions q, s.freeCount, s.totalCount + 1⟩ ihg
        simp [processPairs, List.countP_cons, hih, isInsert]

/-- C2 (amended): when a chunk's decoded JSON is a list of well-formed
pairs followed by an element missing a required key, the well-formed pairs
processed before the malformed element each leave a persisted, committed
row (one insert per pair); only the malformed element and everything after
it are discarded, and the chunk is classified as a general failure and
reported. -/
theorem c2_theorem (plan : String) (pk : Nat) (chunk : List Char) (s : GenState)
    (good : List RawItem) (bad : RawItem) (rest : List RawItem)
    (hp : plan = "FREE" ∨ plan = "PRO")
    (hg : ∀ it ∈ good, it.question ≠ none ∧ it.answer ≠ none)
    (hb : bad.question = none ∨ bad.answer = none) :
    processChunk plan pk chunk (ChatResponse.json (good ++ bad :: rest)) s =
      ((processPairs plan pk good s).1,
        Effect.llmQuestionCall chunk s.prevQuestions :: (processPairs plan pk good s).2.1 ++
          [Effect.notify "Question Generation" "GENERAL"],
        ChunkOutcome.generalFailure) ∧
    ((processPairs plan pk good s).2.1).countP isInsert = good.length := by
  have hpp := processPairs_wf_append_bad plan pk hp bad hb good rest s hg
  refine ⟨?_, processPairs_wf_insert_count plan pk hp good s hg⟩
  simp only [processChunk, hpp]
  rfl

/-- C2: a chunk whose response decodes to a well-formed pair followed by a
pair missing the answer key still persists the first pair: the insert for
("q1","a1") is present in the trace, refuting the all-or-nothing discard. -/
theorem c2_counterexample :
    Effect.dbInsertQuestion "q1" "a1" 7 1 ∈
      handler ['a'] "FREE" 7
        (fun _ => ChatResponse.json [⟨some "q1", some "a1"⟩, ⟨some "q2", none⟩])
        (SummaryResponse.ok (some "s")) := by
  decide

theorem c2_witness :
    (("FREE" : String) = "FREE" ∨ ("FREE" : String) = "PRO") ∧
    (processChunk "FREE" 7 ['a'] (ChatResponse.json
        ([⟨some "q1", some "a1"⟩] ++ (⟨some "q2", none⟩ : RawItem) :: [])) initState =
      ((processPairs "FREE" 7 [⟨some "q1", some "a1"⟩] initState).1,
        Effect.llmQuestionCall ['a'] initState.prevQuestions ::
          (processPairs "FREE" 7 [⟨some "q1", some "a1"⟩] initState).2.1 ++
            [Effect.notify "Question Generation" "GENERAL"],
        ChunkOutcome.generalFailure) ∧
      ((processPairs "FREE" 7 [⟨some "q1", some "a1"⟩] initState).2.1).countP isInsert =
        ([⟨some "q1", some "a1"⟩] : List RawItem).length) :=
  ⟨Or.inl rfl,
    c2_theorem "FREE" 7 ['a'] initState [⟨some "q1", some "a1"⟩] ⟨some "q2", none⟩ []
      (Or.inl rfl) (by decide) (by decide)⟩

theorem runChunks_flags (plan : String) (pk : Nat) (qResp : Nat → ChatResponse) :
    ∀ (chunks : List (List Char)) (i : Nat) (s : GenState) (succ fail : Bool),
      (runChunks plan pk qResp chunks i s succ fail).2.2.1 =
        (succ || (runOutcomes plan pk qResp chunks i s).any isSuccessOutcome) ∧
      (runChunks plan pk qResp chunks i s succ fail).2.2.2 =
        (fail || (runOutcomes plan pk qResp chunks i s).any fun o => !isSuccessOutcome o) := by
  intro chunks
  induction chunks with
  | nil => intro i s succ fail; simp [runChunks, runOutcomes]
  | cons c rest ih =>
    intro i s succ fail
    obtain ⟨ih1, ih2⟩ := ih (i + 1) (processChunk plan pk c (qResp i) s).1
      (if isSuccessOutcome (processChunk plan pk c (qResp i) s).2.2 then true else succ)
      (if isSuccessOutcome (processChunk plan pk c (qResp i) s).2.2 then fail else true)
    constructor
    · simp only [runChunks, runOutcomes]
      rw [ih1, List.any_cons]
      cases ho : isSuccessOutcome (processChunk plan pk c (qResp i) s).2.2 <;> simp [ho]
    · simp only [runChunks, runOutcomes]
      rw [ih2, List.any_cons]
      cases ho : isSuccessOutcome (processChunk plan pk c (qResp i) s).2.2 <;> simp [ho]

/-- C6: the persisted document status is exactly the spec's derivation rule
applied to the list of per-chunk outcomes: no Success chunk gives
COMPLETELY_FAILED, at least one failure among some Success gives
PARTIAL_SUCCESS, and all Success gives PROCESSED. -/
theorem c6_theorem (content : List Char) (plan : String) (pk : Nat)
    (qResp : Nat → ChatResponse) (sResp : SummaryResponse) :
    statusUpdates (handler content plan pk qResp sResp) =
      [specStatusRule (runOutcomes plan pk qResp (chunkList CHUNK_SIZE content) 0
        initState)] := by
  obtain ⟨h1, h2⟩ :=
    runChunks_flags plan pk qResp (chunkList CHUNK_SIZE content) 0 initState false false
  simp only [Bool.false_or] at h1 h2
  simp only [handler]
  rw [statusUpdates_append, runChunks_statusUpdates, List.nil_append]
  by_cases hs : (runOutcomes plan pk qResp (chunkList CHUNK_SIZE content) 0
      initState).any isSuccessOutcome = false
  · rw [if_pos (by rw [h1]; exact hs)]
    rw [specStatusRule, if_pos hs]
    rfl
  · rw [if_neg (by rw [h1]; exact hs), specStatusRule, if_neg hs]
    cases hf : (runOutcomes plan pk qResp (chunkList CHUNK_SIZE content) 0
        initState).any (fun o => !isSuccessOutcome o) <;>
      rw [hf] at h2
    · rw [h2]
      rw [if_neg (show ¬(false = true) by decide), if_neg (show ¬(false = true) by decide)]
      rw [statusUpdates_cons_status, statusUpdates_cons_commit,
        statusUpdates_cons_summaryCall, summaryTail_statusUpdates]
    · rw [h2]
      rw [if_pos (show true = true from rfl), if_pos (show true = true from rfl)]
      rw [statusUpdates_cons_status, statusUpdates_cons_commit,
        statusUpdates_cons_summaryCall, summaryTail_statusUpdates]

theorem deliveredFlags_cons_status (st : String) (l : List Effect) :
    deliveredFlags (Effect.dbUpdateStatus st :: l) = deliveredFlags l := rfl

theorem deliveredFlags_cons_summaryCall (note : List Char) (l : List Effect) :
    deliveredFlags (Effect.llmSummaryCall note :: l) = deliveredFlags l := rfl

theorem quotaFlag_shift (c k i : Nat) : quotaFlag c (k + i) = quotaFlag (c + min k (5 - c)) i := by
  unfold quotaFlag
  by_cases h : c + (k + i) < 5
  · rw [if_pos h, if_pos (by omega)]
  · rw [if_neg h, if_neg (by omega)]

theorem flagsFrom_length (c k : Nat) : (flagsFrom c k).length = k := by
  simp [flagsFrom]

theorem flagsFrom_ge (c k : Nat) (h : 5 ≤ c) : flagsFrom c k = List.replicate k 0 := by
  refine List.eq_replicate_iff.mpr ⟨by simp [flagsFrom], ?_⟩
  intro b hb
  simp only [flagsFrom] at hb
  obtain ⟨i, hi, rfl⟩ := List.mem_map.mp hb
  simp only [quotaFlag]
  rw [if_neg (by omega)]

theorem quotaFlag_comp_succ (c i : Nat) : quotaFlag c (i + 1) = quotaFlag (c + 1) i := by
  simp only [quotaFlag, Nat.add_succ, Nat.succ_add]

theorem flagsFrom_succ_lt (c k : Nat) (h : c < 5) :
    flagsFrom c (k + 1) = 1 :: flagsFrom (c + 1) k := by
  simp only [flagsFrom, List.range_succ_eq_map, List.map_cons, List.map_map]
  congr 1
  · simp only [quotaFlag]
    rw [if_pos (by omega)]
  · apply List.map_congr_left
    intro i _
    show quotaFlag c (Nat.succ i) = quotaFlag (c + 1) i
    exact quotaFlag_comp_succ c i

theorem flagsFrom_append (c k1 k2 : Nat) :
    flagsFrom c k1 ++ flagsFrom (c + min k1 (5 - c)) k2 = flagsFrom c (k1 + k2) := by
  simp only [flagsFrom]
  rw [List.range_add, List.map_append, List.map_map]
  congr 1
  apply List.map_congr_left
  intro i _
  show quotaFlag (c + min k1 (5 - c)) i = quotaFlag c (k1 + i)
  exact (quotaFlag_shift c k1 i).symm

theorem processPairs_free (pk : Nat) : ∀ (items : List RawItem) (s : GenState),
    ∃ k, deliveredFlags (processPairs "FREE" pk items s).2.1 = flagsFrom s.freeCount k ∧
      (processPairs "FREE" pk items s).1.freeCount = s.freeCount + min k (5 - s.freeCount) := by
  intro items
  induction items with
  | nil => intro s; exact ⟨0, rfl, by simp [processPairs]⟩
  | cons it rest ih =>
    intro s
    rcases it with ⟨_ | q, _ | a⟩
    · exact ⟨0, rfl, by simp [processPairs]⟩
    · exact ⟨0, rfl, by simp [processPairs]⟩
    · exact ⟨0, rfl, by simp [processPairs]⟩
    · by_cases hc : FREE_PLAN_QUIZ_QUESTION_NUM ≤ s.freeCount
      · obtain ⟨k, hk1, hk2⟩ := ih ⟨pushWindow s.prevQuestions q, s.freeCount, s.totalCount + 1⟩
        have hc5 : 5 ≤ s.freeCount := hc
        refine ⟨k + 1, ?_, ?_⟩
        · simp only [processPairs]
          rw [if_pos trivial, if_pos hc]
          dsimp only
          rw [deliveredFlags_cons_insert, deliveredFlags_cons_commit, hk1]
          dsimp only
          rw [flagsFrom_ge s.freeCount k hc5, flagsFrom_ge s.freeCount (k + 1) hc5]
          rfl
        · simp only [processPairs]
          rw [if_pos trivial, if_pos hc]
          dsimp only
          rw [hk2]
          dsimp only
          omega
      · obtain ⟨k, hk1, hk2⟩ :=
          ih ⟨pushWindow s.prevQuestions q, s.freeCount + 1, s.totalCount + 1⟩
        have hc5 : ¬(5 ≤ s.freeCount) := hc
        refine ⟨k + 1, ?_, ?_⟩
        · simp only [processPairs]
          rw [if_pos trivial, if_neg hc]
          dsimp only
          rw [deliveredFlags_cons_insert, deliveredFlags_cons_commit, hk1]
          dsimp only
          rw [flagsFrom_succ_lt s.freeCount k (by omega)]
        · simp only [processPairs]
          rw [if_pos trivial, if_neg hc]
          dsimp only
          rw [hk2]
          dsimp only
          omega

theorem processPairs_pro (pk : Nat) : ∀ (items : List RawItem) (s : GenState),
    ∃ k, deliveredFlags (processPairs "PRO" pk items s).2.1 = List.replicate k 1 := by
  intro items
  induction items with
  | nil => intro s; exact ⟨0, rfl⟩
  | cons it rest ih =>
    intro s
    rcases it with ⟨_ | q, _ | a⟩
    · exact ⟨0, rfl⟩
    · exact ⟨0, rfl⟩
    · exact ⟨0, rfl⟩
    · obtain ⟨k, hk⟩ := ih ⟨pushWindow s.prevQuestions q, s.freeCount, s.totalCount + 1⟩
      refine ⟨k + 1, ?_⟩
      simp only [processPairs]
      rw [if_neg (show ¬(("PRO" : String) = "FREE") by decide), if_pos trivial]
      rw [deliveredFlags_cons_insert, deliveredFlags_cons_commit, hk]
      rfl

theorem processChunk_free (pk : Nat) (chunk : List Char) (resp : ChatResponse) (s : GenState) :
    ∃ k, deliveredFlags (processChunk "FREE" pk chunk resp s).2.1 = flagsFrom s.freeCount k ∧
      (processChunk "FREE" pk chunk resp s).1.freeCount =
        s.freeCount + min k (5 - s.freeCount) := by
  cases resp with
  | invalidJson raw => exact ⟨0, rfl, by simp [processChunk]⟩
  | failure => exact ⟨0, rfl, by simp [processChunk]⟩
  | json items =>
    obtain ⟨k, h1, h2⟩ := processPairs_free pk items s
    refine ⟨k, ?_, ?_⟩
    · simp only [processChunk]
      split_ifs <;>
        (rw [deliveredFlags_append, deliveredFlags_cons_call, h1]
         exact List.append_nil _)
    · simp only [processChunk]
      split_ifs <;> exact h2

theorem runChunks_free (pk : Nat) (qResp : Nat → ChatResponse) :
    ∀ (chunks : List (List Char)) (i : Nat) (s : GenState) (succ fail : Bool),
      ∃ k, deliveredFlags (runChunks "FREE" pk qResp chunks i s succ fail).2.1 =
          flagsFrom s.freeCount k ∧
        (runChunks "FREE" pk qResp chunks i s succ fail).1.freeCount =
          s.freeCount + min k (5 - s.freeCount) := by
  intro chunks
  induction chunks with
  | nil => intro i s succ fail; exact ⟨0, rfl, by simp [runChunks]⟩
  | cons c rest ih =>
    intro i s succ fail
    obtain ⟨k1, hc1, hc2⟩ := processChunk_free pk c (qResp i) s
    obtain ⟨k2, hr1, hr2⟩ := ih (i + 1) (processChunk "FREE" pk c (qResp i) s).1
      (if isSuccessOutcome (processChunk "FREE" pk c (qResp i) s).2.2 then true else succ)
      (if isSuccessOutcome (processChunk "FREE" pk c (qResp i) s).2.2 then fail else true)
    refine ⟨k1 + k2, ?_, ?_⟩
    · simp only [runChunks]
      rw [deliveredFlags_append, hc1, hr1, hc2]
      exact flagsFrom_append s.freeCount k1 k2
    · simp only [runChunks]
      rw [hr2, hc2]
      omega

theorem processChunk_pro (pk : Nat) (chunk : List Char) (resp : ChatResponse) (s : GenState) :
    ∃ k, deliveredFlags (processChunk "PRO" pk chunk resp s).2.1 = List.replicate k 1 := by
  cases resp with
  | invalidJson raw => exact ⟨0, rfl⟩
  | failure => exact ⟨0, rfl⟩
  | json items =>
    obtain ⟨k, h1⟩ := processPairs_pro pk items s
    refine ⟨k, ?_⟩
    simp only [processChunk]
    split_ifs <;>
      (rw [deliveredFlags_append, deliveredFlags_cons_call, h1]
       exact List.append_nil _)

theorem runChunks_pro (pk : Nat) (qResp : Nat → ChatResponse) :
    ∀ (chunks : List (List Char)) (i : Nat) (s : GenState) (succ fail : Bool),
      ∃ k, deliveredFlags (runChunks "PRO" pk qResp chunks i s succ fail).2.1 =
        List.replicate k 1 := by
  intro chunks
  induction chunks with
  | nil => intro i s succ fail; exact ⟨0, rfl⟩
  | cons c rest ih =>
    intro i s succ fail
    obtain ⟨k1, hc1⟩ := processChunk_pro pk c (qResp i) s
    obtain ⟨k2, hr1⟩ := ih (i + 1) (processChunk "PRO" pk c (qResp i) s).1
      (if isSuccessOutcome (processChunk "PRO" pk c (qResp i) s).2.2 then true else succ)
      (if isSuccessOutcome (processChunk "PRO" pk c (qResp i) s).2.2 then fail else true)
    refine ⟨k1 + k2, ?_⟩
    simp only [runChunks]
    rw [deliveredFlags_append, hc1, hr1]
    exact (List.replicate_add k1 k2 1).symm

theorem handler_deliveredFlags (content : List Char) (plan : String) (pk : Nat)
    (qResp : Nat → ChatResponse) (sResp : SummaryResponse) :
    deliveredFlags (handler content plan pk qResp sResp) =
      deliveredFlags (runChunks plan pk qResp (chunkList CHUNK_SIZE content) 0 initState
        false false).2.1 := by
  simp only [handler]
  rw [deliveredFlags_append]
  by_cases hs : (runChunks plan pk qResp (chunkList CHUNK_SIZE content) 0 initState
      false false).2.2.1 = false
  · rw [if_pos hs]
    exact List.append_nil _
  · rw [if_neg hs]
    cases hf : (runChunks plan pk qResp (chunkList CHUNK_SIZE content) 0 initState
        false false).2.2.2
    · rw [if_neg (show ¬(false = true) by decide)]
      rw [deliveredFlags_cons_status, deliveredFlags_cons_commit,
        deliveredFlags_cons_summaryCall, summaryTail_deliveredFlags]
      exact List.append_nil _
    · rw [if_pos (show true = true from rfl)]
      rw [deliveredFlags_cons_status, deliveredFlags_cons_commit,
        deliveredFlags_cons_summaryCall, summaryTail_deliveredFlags]
      exact List.append_nil _

theorem flagsFrom_zero_split (k : Nat) :
    flagsFrom 0 k = List.replicate (min k 5) 1 ++ List.replicate (k - 5) 0 := by
  by_cases h : k ≤ 5
  · rw [Nat.min_eq_left h, show k - 5 = 0 from by omega, List.replicate_zero,
      List.append_nil]
    refine List.eq_replicate_iff.mpr ⟨flagsFrom_length 0 k, ?_⟩
    intro b hb
    simp only [flagsFrom] at hb
    obtain ⟨i, hi, rfl⟩ := List.mem_map.mp hb
    have hik : i < k := List.mem_range.mp hi
    simp only [quotaFlag]
    rw [if_pos (by omega)]
  · rw [Nat.min_eq_right (by omega)]
    have hk : k = 5 + (k - 5) := by omega
    rw [flagsFrom]
    conv_lhs => rw [hk]
    rw [List.range_add, List.map_append, List.map_map]
    have e1 : List.map (quotaFlag 0) (List.range 5) = List.replicate 5 1 := by decide
    have e2 : List.map (quotaFlag 0 ∘ fun x => 5 + x) (List.range (k - 5)) =
        List.replicate (k - 5) 0 := by
      refine List.eq_replicate_iff.mpr ⟨by simp, ?_⟩
      intro b hb
      obtain ⟨i, hi, rfl⟩ := List.mem_map.mp hb
      show quotaFlag 0 (5 + i) = 0
      simp only [quotaFlag]
      rw [if_neg (by omega)]
    rw [e1, e2]

/-- C5: under the FREE plan (cap 5) the persisted delivered-count flags of
a run are, in generation order, exactly min(N,5) ones followed by N-5
zeros, where N is the total number of persisted questions; under the PRO
plan every persisted question has delivered count 1. -/
theorem c5_theorem (content : List Char) (pk : Nat) (qResp : Nat → ChatResponse)
    (sResp : SummaryResponse) :
    (deliveredFlags (handler content "FREE" pk qResp sResp) =
      List.replicate (min (deliveredFlags (handler content "FREE" pk qResp sResp)).length 5) 1
        ++ List.replicate
          ((deliveredFlags (handler content "FREE" pk qResp sResp)).length - 5) 0) ∧
    deliveredFlags (handler content "PRO" pk qResp sResp) =
      List.replicate (deliveredFlags (handler content "PRO" pk qResp sResp)).length 1 := by
  constructor
  · obtain ⟨k, h1, _⟩ :=
      runChunks_free pk qResp (chunkList CHUNK_SIZE content) 0 initState false false
    have hh := handler_deliveredFlags content "FREE" pk qResp sResp
    rw [hh, h1, flagsFrom_length]
    exact flagsFrom_zero_split k
  · obtain ⟨k, h1⟩ :=
      runChunks_pro pk qResp (chunkList CHUNK_SIZE content) 0 initState false false
    have hh := handler_deliveredFlags content "PRO" pk qResp sResp
    rw [hh, h1, List.length_replicate]
